import Mathlib

/-
  Shallow embedding of the resilient streaming ingestion pipeline of the
  bnb-fourmeme-monitoring repository: the backoff policy and formatting
  helpers (src/utils/helpers.ts), the block-timestamp cache and the
  connection lifecycle manager (src/rpc/index.ts), and the event
  decode/enrich/dispatch handlers (src/index.ts, Kafka-enabled monitor).

  JavaScript machine integers are modelled as Nat (all quantities involved
  are non-negative and far below 2^53, so JS number arithmetic on them is
  exact); bigint quantities as Nat; IEEE-754 float arithmetic appearing in
  market-cap computation is idealised as exact rational arithmetic over Q.
  Fallible provider and bus calls are modelled as explicit oracle
  parameters; JS Map is modelled as an insertion-ordered association list.
-/

namespace BnbMonitor

/-! ## Backoff policy (src/utils/helpers.ts, calculateBackoffDelay)

    `return Math.min(baseDelay * Math.pow(2, attempt - 1), maxDelay)`
    with defaults baseDelay = 1000, maxDelay = 30000. For attempt >= 1
    the JS subtraction agrees with truncated Nat subtraction. -/

def calculateBackoffDelay (attempt : Nat) (baseDelay : Nat := 1000)
    (maxDelay : Nat := 30000) : Nat :=
  min (baseDelay * 2 ^ (attempt - 1)) maxDelay

/-! ## Decimal formatting (ethers formatUnits, wrapped by formatToken /
    formatBNB in src/utils/helpers.ts)

    ethers renders value / 10^decimals as a decimal string, trimming
    trailing zeros of the fractional part but always keeping at least one
    fractional digit (so 10^24 at 18 decimals prints as "1000000.0"). -/

def dropLeadingZerosKeepLast : List Char → List Char
  | '0' :: c :: cs => dropLeadingZerosKeepLast (c :: cs)
  | l => l

/-- Pad a digit string on the left with zeros up to length `n`. -/
def padLeftZeros (s : String) (n : Nat) : String :=
  String.mk (List.replicate (n - s.length) '0') ++ s

def formatUnits (value : Nat) (decimals : Nat) : String :=
  if decimals = 0 then toString value
  else
    let whole := value / 10 ^ decimals
    let fracStr := padLeftZeros (toString (value % 10 ^ decimals)) decimals
    let fracTrimmed := String.mk (dropLeadingZerosKeepLast fracStr.data.reverse).reverse
    toString whole ++ "." ++ fracTrimmed

def formatToken (value : Nat) (decimals : Nat := 18) : String :=
  formatUnits value decimals

def formatBNB (value : Nat) : String :=
  formatUnits value 18

/-! ## ISO-8601 timestamp (src/utils/helpers.ts, generateKafkaTimestamp)

    `new Date().toISOString()` applied to the current epoch-milliseconds
    reading, rendered as YYYY-MM-DDTHH:mm:ss.sssZ (UTC, proleptic
    Gregorian; the embedding covers post-1970 instants, where all
    intermediate quantities are non-negative). -/

def pad2 (n : Nat) : String :=
  if n < 10 then "0" ++ toString n else toString n

def pad3 (n : Nat) : String :=
  if n < 10 then "00" ++ toString n
  else if n < 100 then "0" ++ toString n
  else toString n

def pad4 (n : Nat) : String :=
  if n < 10 then "000" ++ toString n
  else if n < 100 then "00" ++ toString n
  else if n < 1000 then "0" ++ toString n
  else toString n

/-- Civil date from days since 1970-01-01 (standard era-based algorithm). -/
def civilFromDays (daysSinceEpoch : Nat) : Nat × Nat × Nat :=
  let z := daysSinceEpoch + 719468
  let era := z / 146097
  let doe := z % 146097
  let yoe := (doe - doe / 1460 + doe / 36524 - doe / 146096) / 365
  let y := yoe + era * 400
  let doy := doe - (365 * yoe + yoe / 4 - yoe / 100)
  let mp := (5 * doy + 2) / 153
  let d := doy - (153 * mp + 2) / 5 + 1
  let m := if mp < 10 then mp + 3 else mp - 9
  (if m ≤ 2 then y + 1 else y, m, d)

def toISOString (ms : Nat) : String :=
  let s := ms / 1000
  let days := s / 86400
  let secOfDay := s % 86400
  let ymd := civilFromDays days
  pad4 ymd.1 ++ "-" ++ pad2 ymd.2.1 ++ "-" ++ pad2 ymd.2.2 ++ "T" ++
    pad2 (secOfDay / 3600) ++ ":" ++ pad2 (secOfDay % 3600 / 60) ++ ":" ++
    pad2 (secOfDay % 60) ++ "." ++ pad3 (ms % 1000) ++ "Z"

/-- generateKafkaTimestamp: `new Date().toISOString()`, with the wall-clock
    reading (epoch milliseconds) made an explicit parameter. -/
def generateKafkaTimestamp (nowMs : Nat) : String :=
  toISOString nowMs

/-! ## Block timestamp cache (src/rpc/index.ts, BlockTimeManager)

    `blockTimestamps` is a JS Map from block number to timestamp in
    milliseconds, modelled as an insertion-ordered association list. -/

abbrev Cache := List (Nat × Nat)

def cacheKeys (c : Cache) : List Nat := c.map Prod.fst

/-- JS `Map.set`: update in place if the key is present, else append. -/
def cacheSet (c : Cache) (k v : Nat) : Cache :=
  if k ∈ cacheKeys c then c.map (fun p => if p.1 = k then (k, v) else p)
  else c ++ [(k, v)]

/-- JS `Map.get` composed with `Map.has` guard. -/
def cacheGet (c : Cache) (k : Nat) : Option Nat :=
  (c.find? (fun p => p.1 == k)).map Prod.snd

/-- `Math.min(...this.blockTimestamps.keys())` (only consulted when the
    cache is non-empty). -/
def minKey : Cache → Nat
  | [] => 0
  | p :: ps => (ps.map Prod.fst).foldl Nat.min p.1

/-- JS `Map.delete k`: removes the entry with key `k`. -/
def cacheDelete (c : Cache) (k : Nat) : Cache :=
  c.filter (fun p => p.1 ≠ k)

/-- `maxCacheSize = 100` in BlockTimeManager. -/
def maxCacheSize : Nat := 100

/-- The insert-then-evict step of BlockTimeManager.getBlockTimestamp lines
    156-162: `set`, then if `size > maxCacheSize`, delete the smallest key.
    The capacity is a parameter so the bound can be stated generally;
    the source fixes it to `maxCacheSize`. -/
def insertTimestampWith (cap : Nat) (c : Cache) (k v : Nat) : Cache :=
  if cap < (cacheSet c k v).length then
    cacheDelete (cacheSet c k v) (minKey (cacheSet c k v))
  else cacheSet c k v

def insertTimestamp (c : Cache) (k v : Nat) : Cache :=
  insertTimestampWith maxCacheSize c k v

/-! ## getBlockTimestamp retry loop (src/rpc/index.ts lines 132-182)

    The provider is modelled as an oracle mapping the attempt number to
    the outcome of `provider.getBlock(blockNumber)`: a found block with a
    timestamp in unix seconds, an absent block (`!block`), or a thrown
    error. `sleep(delay)` is recorded in the `delays` list. -/

inductive FetchResult where
  | found (timestampSec : Nat)
  | absent
  | errored
deriving DecidableEq, Repr

def FetchResult.isFailure : FetchResult → Bool
  | .found _ => false
  | .absent => true
  | .errored => true

structure FetchOutcome where
  result : Option Nat
  cache : Cache
  attemptsMade : Nat
  delays : List Nat
deriving DecidableEq, Repr

/-- The `for (let attempt = 1; attempt <= maxRetries; attempt++)` loop.
    `attempt` is the current attempt number; `remaining` is
    `maxRetries - attempt + 1`, so `attempt < maxRetries` is
    `remaining ≠ 1`. Absent blocks and thrown errors take the same
    retry path (they differ only in log output). -/
def fetchLoop (oracle : Nat → FetchResult) (c : Cache) (bn : Nat) :
    Nat → Nat → FetchOutcome
  | _, 0 => ⟨none, c, 0, []⟩
  | attempt, remaining + 1 =>
    match oracle attempt with
    | .found ts =>
        let timestamp := ts * 1000
        ⟨some timestamp, insertTimestamp c bn timestamp, 1, []⟩
    | .absent | .errored =>
        if remaining = 0 then ⟨none, c, 1, []⟩
        else
          let rest := fetchLoop oracle c bn (attempt + 1) remaining
          ⟨rest.result, rest.cache, rest.attemptsMade + 1,
            calculateBackoffDelay attempt :: rest.delays⟩

/-- BlockTimeManager.getBlockTimestamp: cache hit returns immediately with
    no fetch; on a miss the retry loop runs from attempt 1. -/
def getBlockTimestamp (oracle : Nat → FetchResult) (c : Cache) (bn : Nat)
    (maxRetries : Nat := 3) : FetchOutcome :=
  match cacheGet c bn with
  | some v => ⟨some v, c, 0, []⟩
  | none => fetchLoop oracle c bn 1 maxRetries

/-! ## Connection lifecycle manager (src/rpc/index.ts, RPCProvider)

    The connect / reconnect loop is modelled over the outcomes of the
    successive connect attempts (`true` = the session is confirmed live
    before the confirmation timeout, `false` = the connect fails and its
    catch block re-enters reconnect). `process.exit(1)` is the terminal
    `fatalExit` result. A trace shorter than the run needs is reported as
    `outOfTrace` carrying the attempt counter at that point. -/

inductive RunResult where
  | connected (reconnectAttempts : Nat)
  | fatalExit (code : Nat)
  | outOfTrace (reconnectAttempts : Nat)
deriving DecidableEq, Repr

/-- The reconnect / connect cycle of RPCProvider, projected onto the
    reconnect-attempt counter. `reconnect()` first checks
    `reconnectAttempts >= maxReconnectAttempts` and performs
    `process.exit(1)` when it holds; otherwise it increments the counter,
    tears down the session, sleeps, and calls `connect()`, which on
    success resets the counter to 0 and on failure re-enters
    `reconnect()`. -/
def runReconnect (maxReconnectAttempts : Nat) :
    Nat → List Bool → RunResult
  | reconnectAttempts, [] =>
    if maxReconnectAttempts ≤ reconnectAttempts then .fatalExit 1
    else .outOfTrace (reconnectAttempts + 1)
  | reconnectAttempts, ok :: rest =>
    if maxReconnectAttempts ≤ reconnectAttempts then .fatalExit 1
    else if ok then .connected 0
    else runReconnect maxReconnectAttempts (reconnectAttempts + 1) rest

/-- Default `maxReconnectAttempts` of RPCProvider. -/
def defaultMaxReconnectAttempts : Nat := 10

/-! For the re-entrancy claim the reconnect body is modelled at
    task-switch granularity. The synchronous prefix of `reconnect()` —
    everything before its first `await` (the ceiling check, the counter
    increment, `isConnected = false`, clearing the health-check timer) —
    runs atomically; a racing second trigger can invoke `reconnect()`
    while the first invocation is suspended at `await provider.destroy()`
    or `await sleep(...)`. There is no state check guarding re-entry. -/

structure ConnState where
  reconnectAttempts : Nat
  isConnected : Bool
  healthTimerActive : Bool
  providerPresent : Bool
deriving DecidableEq, Repr

/-- The synchronous prefix of `reconnect()`; `none` is the
    `process.exit(1)` path. -/
def reconnectEntry (maxReconnectAttempts : Nat) (s : ConnState) :
    Option ConnState :=
  if maxReconnectAttempts ≤ s.reconnectAttempts then none
  else some { s with
    reconnectAttempts := s.reconnectAttempts + 1
    isConnected := false
    healthTimerActive := false }

/-! ## Trade handlers: market-cap computation and auxiliary calls
    (src/index.ts, handleTokenPurchase lines 529-583 and handleTokenSale
    lines 585-638 of the Kafka-enabled monitor)

    The float arithmetic `parseFloat(formatToken(x))` is idealised as the
    exact rational x / 10^18. The outcome records the computed market cap
    together with the list of token addresses for which the auxiliary
    `totalSupply()` read-only call (getTokenTotalSupply) was issued.
    The oracle gives that call's result: `some supply` on success,
    `none` when it fails (getTokenTotalSupply catches and returns null). -/

inductive ContractVersion where
  | V1
  | V2
deriving DecidableEq, Repr

structure TradeArgs where
  token : String
  account : String
  priceRaw : Nat
  amountRaw : Nat
  costRaw : Nat
deriving DecidableEq, Repr

/-- Exact value of `parseFloat(formatToken(raw))`: raw / 10^18. -/
def ratOfUnits (raw : Nat) : ℚ :=
  (raw : ℚ) / 10 ^ 18

def calculateMarketCap (price supply : ℚ) : ℚ :=
  price * supply

structure MarketCapOutcome where
  marketCap : ℚ
  auxCalls : List String
deriving DecidableEq, Repr

/-- Market-cap block of handleTokenPurchase (lines 537-556): on V2 the
    price is parsed; if positive, the auxiliary getTokenTotalSupply call
    is commented out in the source and a hardcoded raw `totalSupply` of
    1000000000 is used instead, so no auxiliary call is ever issued. -/
def purchaseMarketCap (contractVersion : ContractVersion)
    (args : TradeArgs) : MarketCapOutcome :=
  if contractVersion = .V2 then
    let price := ratOfUnits args.priceRaw
    if 0 < price then
      let totalSupply : Nat := 1000000000
      let supply := ratOfUnits totalSupply
      ⟨calculateMarketCap price supply, []⟩
    else ⟨0, []⟩
  else ⟨0, []⟩

/-- Market-cap block of handleTokenSale (lines 593-611): on V2 with a
    positive price, getTokenTotalSupply is awaited on the trade's token;
    a null result (failed auxiliary call, logged inside
    getTokenTotalSupply) or a zero supply (falsy bigint) leaves the
    market cap at its default 0. -/
def saleMarketCap (contractVersion : ContractVersion) (args : TradeArgs)
    (totalSupplyOracle : Option Nat) : MarketCapOutcome :=
  if contractVersion = .V2 then
    let price := ratOfUnits args.priceRaw
    if 0 < price then
      match totalSupplyOracle with
      | some totalSupply =>
          if totalSupply ≠ 0 then
            let supply := ratOfUnits totalSupply
            ⟨calculateMarketCap price supply, [args.token]⟩
          else ⟨0, [args.token]⟩
      | none => ⟨0, [args.token]⟩
    else ⟨0, []⟩
  else ⟨0, []⟩

/-! ## Publish keys (src/index.ts sendToKafka; kafka sender
    sendRawTokenEvent)

    JS `a || b` on strings treats both `undefined` and `""` as falsy. -/

def jsOrString (a : Option String) (b : String) : String :=
  match a with
  | some s => if s = "" then b else s
  | none => b

/-- Message key of sendToKafka:
    `event.token_mint || event.signature || Math.random().toString()`;
    the random draw is an explicit parameter. -/
def sendToKafkaKey (tokenMint signature : Option String)
    (randomDraw : String) : String :=
  jsOrString tokenMint (jsOrString signature randomDraw)

/-- Message key of sendRawTokenEvent:
    `eventData.signature || ` the template `topic-Date.now()`;
    the clock reading is an explicit parameter. -/
def sendRawTokenEventKey (signature : Option String) (topic : String)
    (nowMs : Nat) : String :=
  jsOrString signature (topic ++ "-" ++ toString nowMs)

/-! ## TokenCreate decode-and-enrich (src/index.ts, handleTokenCreate
    lines 493-527 of the Kafka-enabled monitor) -/

structure TokenCreateArgs where
  creator : String
  token : String
  name : String
  symbol : String
  totalSupplyRaw : Nat
deriving DecidableEq, Repr

structure LogInfo where
  blockNumber : Nat
  transactionHash : String
deriving DecidableEq, Repr

structure TokenCreateRecord where
  chain_id : Nat
  token_mint : String
  token_name : String
  token_symbol : String
  creator_wallet : String
  metadata_uri : String
  initial_supply : String
  block_time : Nat
  slot : Nat
  signature : String
  kafka_timestamp : String
deriving DecidableEq, Repr

structure CreatedToken where
  token_mint : String
  created_at : Nat
deriving DecidableEq, Repr

/-- `blockTimestamp ? Math.floor(blockTimestamp / 1000)
      : Math.floor(Date.now() / 1000)` — a cached timestamp of 0 is falsy
    in JS and also falls back to the current wall clock. -/
def blockTimeOf (blockTimestamp : Option Nat) (nowMs : Nat) : Nat :=
  match blockTimestamp with
  | some ts => if ts ≠ 0 then ts / 1000 else nowMs / 1000
  | none => nowMs / 1000

/-- The record constructed by handleTokenCreate, with the cache result
    and the wall-clock reading (epoch ms) explicit. -/
def handleTokenCreateRecord (args : TokenCreateArgs) (log : LogInfo)
    (blockTimestamp : Option Nat) (nowMs : Nat) : TokenCreateRecord :=
  { chain_id := 0
    token_mint := args.token
    token_name := args.name
    token_symbol := args.symbol
    creator_wallet := args.creator
    metadata_uri := "N/A"
    initial_supply := formatToken args.totalSupplyRaw
    block_time := blockTimeOf blockTimestamp nowMs
    slot := log.blockNumber
    signature := log.transactionHash
    kafka_timestamp := generateKafkaTimestamp nowMs }

/-- handleTokenCreate end to end: resolve the block timestamp through the
    BlockTimeManager (fetching on a miss), build the record, and append to
    the in-memory created-token index. Returns the record, the cache after
    the lookup, and the new index. -/
def handleTokenCreateFull (oracle : Nat → FetchResult) (c : Cache)
    (createdTokens : List CreatedToken) (args : TokenCreateArgs)
    (log : LogInfo) (nowMs : Nat) :
    TokenCreateRecord × Cache × List CreatedToken :=
  let fetched := getBlockTimestamp oracle c log.blockNumber
  let tokenData := handleTokenCreateRecord args log fetched.result nowMs
  (tokenData, fetched.cache,
    createdTokens ++ [⟨tokenData.token_mint, nowMs⟩])

/-! ## Kafka producer lifecycle (src/index.ts, initializeKafkaProducer
    lines 458-467, sendToKafka lines 470-490, startFourMemeMonitoring) -/

/-- Output topics (config/config.ts). -/
def TOKEN_RAW_CREATED : String := "token.raw.created"
def TOKEN_RAW_TRADE : String := "token.raw.trade"
def TOKEN_RAW_MIGRATED : String := "token.raw.migrated"

/-- Kafka-side process state: `producer` mirrors the module-level
    `kafkaProducer` variable (`none` = null); `published` records every
    message handed to `producer.send` (JSON serialisation of the record is
    abstracted: the record itself is stored). -/
structure KafkaState where
  producer : Option Unit
  published : List (String × String × TokenCreateRecord)
deriving DecidableEq, Repr

/-- initializeKafkaProducer: on a connect failure the catch block logs and
    sets the producer to null. Called once from startFourMemeMonitoring. -/
def initializeKafkaProducer (connectSucceeds : Bool) (st : KafkaState) :
    KafkaState :=
  if connectSucceeds then { st with producer := some () }
  else { st with producer := none }

/-- sendToKafka: with a null producer it logs and returns without
    publishing and without raising; with a live producer a send failure is
    caught and logged. It never re-initializes the producer. -/
def sendToKafka (st : KafkaState) (topic : String)
    (event : TokenCreateRecord) (randomDraw : String)
    (sendSucceeds : Bool) : KafkaState :=
  match st.producer with
  | none => st
  | some _ =>
      if sendSucceeds then
        { st with published := st.published ++
            [(topic,
              sendToKafkaKey (some event.token_mint) (some event.signature)
                randomDraw,
              event)] }
      else st

/-- handleTokenCreate followed by its `sendToKafka(TOKEN_RAW_CREATED, ...)`
    call: the record is constructed, logged and returned whether or not the
    producer is live. -/
def handleTokenCreateWithKafka (st : KafkaState)
    (oracle : Nat → FetchResult) (c : Cache)
    (createdTokens : List CreatedToken) (args : TokenCreateArgs)
    (log : LogInfo) (nowMs : Nat) (randomDraw : String)
    (sendSucceeds : Bool) :
    TokenCreateRecord × KafkaState × Cache × List CreatedToken :=
  let r := handleTokenCreateFull oracle c createdTokens args log nowMs
  (r.1, sendToKafka st TOKEN_RAW_CREATED r.1 randomDraw sendSucceeds,
    r.2.1, r.2.2)

/-! ## Concrete inputs used by the end-to-end scenario claims -/

/-- A concrete V2 trade: price 2 tokens-per-unit in raw 18-decimals form
    (2 * 10^18, parsing to the positive price 2). -/
def c5Args : TradeArgs :=
  ⟨"0xBBB...", "0xAAA...", 2 * 10 ^ 18, 10 ^ 18, 10 ^ 18⟩

/-- The raw TokenCreate log of the end-to-end scenario: creator 0xAAA...,
    token 0xBBB..., name "Pepe", symbol "PEPE", totalSupply 10^24. -/
def c8Args : TokenCreateArgs :=
  ⟨"0xAAA...", "0xBBB...", "Pepe", "PEPE", 10 ^ 24⟩

def c8Log : LogInfo := ⟨100, "0xSIG"⟩

/-- Cache pre-populated for the log's block number with timestamp
    1700000000000 ms. -/
def c8Cache : Cache := [(100, 1700000000000)]

/-- An arbitrary concrete wall-clock reading during handling (ms). -/
def c8Now : Nat := 1700000001234

/-- Every field of a canonical TokenCreate record except the
    record-creation wall-clock field kafka_timestamp. -/
def recordWithoutKafkaTimestamp (r : TokenCreateRecord) :
    Nat × String × String × String × String × String × String ×
      Nat × Nat × String :=
  (r.chain_id, r.token_mint, r.token_name, r.token_symbol,
    r.creator_wallet, r.metadata_uri, r.initial_supply, r.block_time,
    r.slot, r.signature)

/-! ## Helper lemmas -/

lemma runReconnect_all_false (maxA : Nat) :
    ∀ (outcomes : List Bool) (attempts : Nat),
      (∀ b ∈ outcomes, b = false) → maxA ≤ attempts + outcomes.length →
      runReconnect maxA attempts outcomes = .fatalExit 1 := by
  intro outcomes
  induction outcomes with
  | nil =>
      intro attempts _ hlen
      simp only [List.length_nil, Nat.add_zero] at hlen
      simp [runReconnect, hlen]
  | cons b rest ih =>
      intro attempts hall hlen
      by_cases hc : maxA ≤ attempts
      · simp [runReconnect, hc]
      · have hb : b = false := hall b (by simp)
        subst hb
        simp only [runReconnect, if_neg hc, Bool.false_eq_true, if_false]
        exact ih (attempts + 1) (fun x hx => hall x (by simp [hx]))
          (by simp only [List.length_cons] at hlen; omega)

lemma foldl_min_mem : ∀ (l : List Nat) (a : Nat),
    l.foldl Nat.min a ∈ a :: l := by
  intro l
  induction l with
  | nil =>
      intro a
      simp
  | cons x xs ih =>
      intro a
      have h := ih (Nat.min a x)
      simp only [List.foldl_cons]
      rcases List.mem_cons.mp h with h1 | h1
      · rw [h1]
        rcases Nat.le_total a x with hle | hle
        · have hm : Nat.min a x = a := by
            unfold Nat.min
            exact min_eq_left hle
          rw [hm]
          exact List.mem_cons_self _ _
        · have hm : Nat.min a x = x := by
            unfold Nat.min
            exact min_eq_right hle
          rw [hm]
          exact List.mem_cons_of_mem _ (List.mem_cons_self _ _)
      · exact List.mem_cons_of_mem _ (List.mem_cons_of_mem _ h1)

lemma foldl_min_of_le : ∀ (l : List Nat) (a : Nat),
    (∀ x ∈ l, a ≤ x) → l.foldl Nat.min a = a := by
  intro l
  induction l with
  | nil =>
      intro a _
      rfl
  | cons x xs ih =>
      intro a h
      simp only [List.foldl_cons]
      have hm : Nat.min a x = a := by
        unfold Nat.min
        exact min_eq_left (h x (List.mem_cons_self x xs))
      rw [hm]
      exact ih a (fun y hy => h y (List.mem_cons_of_mem x hy))

lemma minKey_mem (c : Cache) (h : c ≠ []) : minKey c ∈ cacheKeys c := by
  cases c with
  | nil => exact absurd rfl h
  | cons p ps =>
      have hm := foldl_min_mem (ps.map Prod.fst) p.1
      simpa [minKey, cacheKeys] using hm

lemma cacheSet_of_not_mem (c : Cache) (k v : Nat)
    (h : k ∉ cacheKeys c) : cacheSet c k v = c ++ [(k, v)] := by
  simp [cacheSet, h]

lemma cacheSet_length_le (c : Cache) (k v : Nat) :
    (cacheSet c k v).length ≤ c.length + 1 := by
  by_cases h : k ∈ cacheKeys c <;> simp [cacheSet, h]

lemma insertTimestampWith_length_le (cap : Nat) (c : Cache) (k v : Nat)
    (hlen : c.length ≤ cap) :
    (insertTimestampWith cap c k v).length ≤ cap := by
  unfold insertTimestampWith
  by_cases hover : cap < (cacheSet c k v).length
  · rw [if_pos hover]
    have hne : cacheSet c k v ≠ [] := by
      intro h
      rw [h] at hover
      simp at hover
    obtain ⟨p, hp, hp1⟩ := List.mem_map.mp (minKey_mem (cacheSet c k v) hne)
    have hlt : (cacheDelete (cacheSet c k v)
        (minKey (cacheSet c k v))).length < (cacheSet c k v).length := by
      apply List.length_filter_lt_length_iff_exists.mpr
      exact ⟨p, hp, by simp [hp1]⟩
    have hub := cacheSet_length_le c k v
    omega
  · rw [if_neg hover]
    omega

lemma cacheDelete_cons_drop (p : Nat × Nat) (ps : Cache) (m : Nat)
    (h : p.1 = m) : cacheDelete (p :: ps) m = cacheDelete ps m := by
  simp [cacheDelete, List.filter_cons, h]

lemma cacheDelete_cons_keep (p : Nat × Nat) (ps : Cache) (m : Nat)
    (h : p.1 ≠ m) : cacheDelete (p :: ps) m = p :: cacheDelete ps m := by
  simp [cacheDelete, List.filter_cons, h]

lemma cacheDelete_length_of_mem : ∀ (c : Cache) (m : Nat),
    (cacheKeys c).Nodup → m ∈ cacheKeys c →
    (cacheDelete c m).length + 1 = c.length := by
  intro c
  induction c with
  | nil =>
      intro m _ hm
      simp [cacheKeys] at hm
  | cons p ps ih =>
      intro m hnd hm
      have hnd0 : p.1 ∉ cacheKeys ps ∧ (cacheKeys ps).Nodup := by
        have h0 : (p.1 :: cacheKeys ps).Nodup := by
          simpa [cacheKeys] using hnd
        exact List.nodup_cons.mp h0
      by_cases hpm : p.1 = m
      · have hnotin : m ∉ cacheKeys ps := hpm ▸ hnd0.1
        have hall : cacheDelete ps m = ps := by
          unfold cacheDelete
          apply List.filter_eq_self.mpr
          intro a ha
          simp only [decide_eq_true_eq]
          intro ham
          exact hnotin (ham ▸ List.mem_map_of_mem Prod.fst ha)
        rw [cacheDelete_cons_drop p ps m hpm, hall]
        simp
      · have hm2 : m ∈ cacheKeys ps := by
          have h0 : m = p.1 ∨ m ∈ cacheKeys ps := by
            simpa [cacheKeys] using hm
          rcases h0 with h | h
          · exact absurd h.symm hpm
          · exact h
        rw [cacheDelete_cons_keep p ps m hpm]
        have := ih m hnd0.2 hm2
        simp only [List.length_cons]
        omega

lemma mem_keys_cacheDelete (c : Cache) (m j : Nat) :
    j ∈ cacheKeys (cacheDelete c m) ↔ j ∈ cacheKeys c ∧ j ≠ m := by
  simp only [cacheKeys, cacheDelete, List.mem_map, List.mem_filter,
    decide_eq_true_eq]
  constructor
  · rintro ⟨p, ⟨hp, hne⟩, rfl⟩
    exact ⟨⟨p, hp, rfl⟩, hne⟩
  · rintro ⟨⟨p, hp, rfl⟩, hne⟩
    exact ⟨p, ⟨hp, hne⟩, rfl⟩

lemma pairwise_head_min (q : Nat × Nat) (ps : Cache)
    (hp : List.Pairwise (fun a b : Nat × Nat => a.1 < b.1) (q :: ps)) :
    minKey (q :: ps) = q.1 := by
  show (ps.map Prod.fst).foldl Nat.min q.1 = q.1
  apply foldl_min_of_le
  intro x hx
  obtain ⟨r, hr, rfl⟩ := List.mem_map.mp hx
  exact le_of_lt ((List.pairwise_cons.mp hp).1 r hr)

lemma pairwise_delete_head (q : Nat × Nat) (ps : Cache)
    (hp : List.Pairwise (fun a b : Nat × Nat => a.1 < b.1) (q :: ps)) :
    cacheDelete (q :: ps) q.1 = ps := by
  rw [cacheDelete_cons_drop q ps q.1 rfl]
  unfold cacheDelete
  apply List.filter_eq_self.mpr
  intro a ha
  simp only [decide_eq_true_eq]
  exact ne_of_gt ((List.pairwise_cons.mp hp).1 a ha)

lemma foldl_insert_sorted (cap : Nat) (hcap : 0 < cap) :
    ∀ (es c : List (Nat × Nat)),
      List.Pairwise (fun a b : Nat × Nat => a.1 < b.1) (c ++ es) →
      c.length ≤ cap →
      es.foldl (fun acc p => insertTimestampWith cap acc p.1 p.2) c
        = (c ++ es).drop (c.length + es.length - cap) := by
  intro es
  induction es with
  | nil =>
      intro c _ hlen
      simp [Nat.sub_eq_zero_of_le hlen]
  | cons p rest ih =>
      intro c hp hlen
      have hgt : ∀ q ∈ c, q.1 < p.1 := by
        intro q hq
        exact (List.pairwise_append.mp hp).2.2 q hq p (by simp)
      have hnotmem : p.1 ∉ cacheKeys c := by
        intro hmem
        obtain ⟨q, hq, hq1⟩ := List.mem_map.mp hmem
        exact absurd hq1 (Nat.ne_of_lt (hgt q hq))
      simp only [List.foldl_cons]
      by_cases hover : cap < c.length + 1
      · have hclen : c.length = cap := by omega
        have hcne : c ≠ [] := by
          intro h
          rw [h] at hclen
          simp at hclen
          omega
        obtain ⟨q, cs, rfl⟩ := List.exists_cons_of_ne_nil hcne
        have hcs : cs.length + 1 = cap := by simpa using hclen
        have hset2 : cacheSet (q :: cs) p.1 p.2 = q :: (cs ++ [p]) := by
          rw [cacheSet_of_not_mem _ _ _ hnotmem]
          simp
        have hp1 : List.Pairwise (fun a b : Nat × Nat => a.1 < b.1)
            (q :: (cs ++ [p])) := by
          have sub : List.Sublist ((q :: cs) ++ [p])
              ((q :: cs) ++ p :: rest) :=
            List.Sublist.append_left
              (List.cons_sublist_cons.mpr (List.nil_sublist rest)) (q :: cs)
          have hsub := hp.sublist sub
          simpa using hsub
        have hstep : insertTimestampWith cap (q :: cs) p.1 p.2
            = cs ++ [p] := by
          unfold insertTimestampWith
          rw [hset2, if_pos (by
            simp only [List.length_cons, List.length_append,
              List.length_nil]
            omega)]
          rw [pairwise_head_min q (cs ++ [p]) hp1,
            pairwise_delete_head q (cs ++ [p]) hp1]
        rw [hstep]
        have htail : List.Pairwise (fun a b : Nat × Nat => a.1 < b.1)
            ((cs ++ [p]) ++ rest) := by
          have h0 : List.Pairwise (fun a b : Nat × Nat => a.1 < b.1)
              (q :: (cs ++ p :: rest)) := by simpa using hp
          simpa [List.append_assoc] using h0.of_cons
        have hlen2 : (cs ++ [p]).length ≤ cap := by
          simp only [List.length_append, List.length_cons, List.length_nil]
          omega
        refine (ih (cs ++ [p]) htail hlen2).trans ?_
        simp only [List.append_assoc, List.singleton_append,
          List.cons_append, List.nil_append, List.length_append,
          List.length_cons, List.length_nil]
        rw [show cs.length + (1 + 0) + rest.length - cap = rest.length
            from by omega,
          show cs.length + 1 + (rest.length + 1) - cap = rest.length + 1
            from by omega,
          List.drop_succ_cons]
      · have hstep : insertTimestampWith cap c p.1 p.2 = c ++ [p] := by
          unfold insertTimestampWith
          rw [cacheSet_of_not_mem _ _ _ hnotmem]
          simp only [Prod.mk.eta]
          rw [if_neg (by
            simp only [List.length_append, List.length_cons,
              List.length_nil]
            omega)]
        rw [hstep]
        have htail : List.Pairwise (fun a b : Nat × Nat => a.1 < b.1)
            ((c ++ [p]) ++ rest) := by
          simpa [List.append_assoc] using hp
        have hlen2 : (c ++ [p]).length ≤ cap := by
          simp only [List.length_append, List.length_cons, List.length_nil]
          omega
        refine (ih (c ++ [p]) htail hlen2).trans ?_
        simp only [List.append_assoc, List.singleton_append,
          List.length_append, List.length_cons, List.length_nil]
        congr 1
        omega

lemma fetchLoop_failure_last (oracle : Nat → FetchResult) (c : Cache)
    (bn attempt : Nat) (h : (oracle attempt).isFailure = true) :
    fetchLoop oracle c bn attempt 1 = ⟨none, c, 1, []⟩ := by
  cases horacle : oracle attempt with
  | found ts =>
      rw [horacle] at h
      simp [FetchResult.isFailure] at h
  | absent => simp [fetchLoop, horacle]
  | errored => simp [fetchLoop, horacle]

lemma fetchLoop_failure_step (oracle : Nat → FetchResult) (c : Cache)
    (bn attempt r : Nat) (h : (oracle attempt).isFailure = true)
    (hr : r ≠ 0) :
    fetchLoop oracle c bn attempt (r + 1)
      = ⟨(fetchLoop oracle c bn (attempt + 1) r).result,
          (fetchLoop oracle c bn (attempt + 1) r).cache,
          (fetchLoop oracle c bn (attempt + 1) r).attemptsMade + 1,
          calculateBackoffDelay attempt
            :: (fetchLoop oracle c bn (attempt + 1) r).delays⟩ := by
  cases horacle : oracle attempt with
  | found ts =>
      rw [horacle] at h
      simp [FetchResult.isFailure] at h
  | absent => simp [fetchLoop, horacle, hr]
  | errored => simp [fetchLoop, horacle, hr]

lemma fetchLoop_success_first (oracle : Nat → FetchResult) (c : Cache)
    (bn attempt r ts : Nat) (h : oracle attempt = .found ts) :
    fetchLoop oracle c bn attempt (r + 1)
      = ⟨some (ts * 1000), insertTimestamp c bn (ts * 1000), 1, []⟩ := by
  simp [fetchLoop, h]

lemma fetchLoop_attempts_le (oracle : Nat → FetchResult) (c : Cache)
    (bn : Nat) : ∀ (remaining attempt : Nat),
    (fetchLoop oracle c bn attempt remaining).attemptsMade ≤ remaining := by
  intro remaining
  induction remaining with
  | zero =>
      intro attempt
      simp [fetchLoop]
  | succ r ih =>
      intro attempt
      cases horacle : oracle attempt with
      | found ts =>
          rw [fetchLoop_success_first oracle c bn attempt r ts horacle]
          exact Nat.succ_le_succ (Nat.zero_le r)
      | absent =>
          by_cases hr : r = 0
          · subst hr
            rw [fetchLoop_failure_last oracle c bn attempt
              (by rw [horacle]; rfl)]
          · rw [fetchLoop_failure_step oracle c bn attempt r
              (by rw [horacle]; rfl) hr]
            exact Nat.succ_le_succ (ih (attempt + 1))
      | errored =>
          by_cases hr : r = 0
          · subst hr
            rw [fetchLoop_failure_last oracle c bn attempt
              (by rw [horacle]; rfl)]
          · rw [fetchLoop_failure_step oracle c bn attempt r
              (by rw [horacle]; rfl) hr]
            exact Nat.succ_le_succ (ih (attempt + 1))

lemma fetchLoop_all_fail (oracle : Nat → FetchResult) (c : Cache)
    (bn : Nat) : ∀ (remaining attempt : Nat), 0 < remaining →
    (∀ i, attempt ≤ i → i < attempt + remaining →
      (oracle i).isFailure = true) →
    fetchLoop oracle c bn attempt remaining
      = ⟨none, c, remaining,
          (List.range' attempt (remaining - 1)).map
            (fun a => calculateBackoffDelay a)⟩ := by
  intro remaining
  induction remaining with
  | zero =>
      intro attempt h
      exact absurd h (lt_irrefl 0)
  | succ r ih =>
      intro attempt _ hall
      have hfail : (oracle attempt).isFailure = true :=
        hall attempt le_rfl (by omega)
      by_cases hr : r = 0
      · subst hr
        rw [fetchLoop_failure_last oracle c bn attempt hfail]
        rfl
      · rw [fetchLoop_failure_step oracle c bn attempt r hfail hr,
          ih (attempt + 1) (Nat.pos_of_ne_zero hr)
            (fun i h1 h2 => hall i (by omega) (by omega))]
        obtain ⟨k, rfl⟩ := Nat.exists_eq_succ_of_ne_zero hr
        simp [List.range'_succ]

lemma fetchLoop_success_at (oracle : Nat → FetchResult) (c : Cache)
    (bn : Nat) : ∀ (j remaining attempt ts : Nat), j < remaining →
    (∀ i, attempt ≤ i → i < attempt + j → (oracle i).isFailure = true) →
    oracle (attempt + j) = .found ts →
    fetchLoop oracle c bn attempt remaining
      = ⟨some (ts * 1000), insertTimestamp c bn (ts * 1000), j + 1,
          (List.range' attempt j).map
            (fun a => calculateBackoffDelay a)⟩ := by
  intro j
  induction j with
  | zero =>
      intro remaining attempt ts hlt hfails hsucc
      obtain ⟨r, rfl⟩ :=
        Nat.exists_eq_succ_of_ne_zero (by omega : remaining ≠ 0)
      rw [Nat.add_zero] at hsucc
      rw [fetchLoop_success_first oracle c bn attempt r ts hsucc]
      rfl
  | succ k ih =>
      intro remaining attempt ts hlt hfails hsucc
      obtain ⟨r, rfl⟩ :=
        Nat.exists_eq_succ_of_ne_zero (by omega : remaining ≠ 0)
      have hfail : (oracle attempt).isFailure = true :=
        hfails attempt le_rfl (by omega)
      have hr : r ≠ 0 := by omega
      rw [fetchLoop_failure_step oracle c bn attempt r hfail hr,
        ih r (attempt + 1) ts (by omega)
          (fun i h1 h2 => hfails i (by omega) (by omega))
          (by rw [show attempt + 1 + k = attempt + (k + 1) by omega]
              exact hsucc)]
      simp [List.range'_succ]

/-! ## Claim theorems -/

/-- C6: the backoff policy calculateBackoffDelay(attempt, base, max)
    equals min(base * 2^(attempt-1), max) for every positive integer
    attempt, is a total function with no failure mode, is monotonically
    non-decreasing in the attempt number, never exceeds the cap, and once
    it has reached the cap it stays constant at the cap. -/
theorem calculateBackoffDelay_spec (baseDelay maxDelay : Nat) :
    (∀ attempt, 1 ≤ attempt →
      calculateBackoffDelay attempt baseDelay maxDelay
        = min (baseDelay * 2 ^ (attempt - 1)) maxDelay)
    ∧ (∀ a b, 1 ≤ a → a ≤ b →
      calculateBackoffDelay a baseDelay maxDelay
        ≤ calculateBackoffDelay b baseDelay maxDelay)
    ∧ (∀ attempt, calculateBackoffDelay attempt baseDelay maxDelay ≤ maxDelay)
    ∧ (∀ a b, 1 ≤ a → a ≤ b →
      calculateBackoffDelay a baseDelay maxDelay = maxDelay →
      calculateBackoffDelay b baseDelay maxDelay = maxDelay) := by
  have hmono : ∀ a b : Nat, a ≤ b →
      calculateBackoffDelay a baseDelay maxDelay
        ≤ calculateBackoffDelay b baseDelay maxDelay := by
    intro a b hab
    exact min_le_min
      (Nat.mul_le_mul_left _
        (Nat.pow_le_pow_right (by decide) (Nat.sub_le_sub_right hab 1)))
      le_rfl
  exact ⟨fun _ _ => rfl, fun a b _ hab => hmono a b hab,
    fun _ => min_le_right _ _,
    fun a b _ hab hcap =>
      le_antisymm (min_le_right _ _) (hcap.symm.trans_le (hmono a b hab))⟩

/-- Witness for C6 at the default base 1000 and cap 30000, attempts 1, 3
    and 7 (attempt 6 has already reached the cap). -/
theorem calculateBackoffDelay_spec_witness :
    calculateBackoffDelay 1 1000 30000 = min (1000 * 2 ^ 0) 30000
    ∧ calculateBackoffDelay 1 1000 30000 ≤ calculateBackoffDelay 3 1000 30000
    ∧ calculateBackoffDelay 7 1000 30000 = 30000 := by
  have h := calculateBackoffDelay_spec 1000 30000
  exact ⟨h.1 1 (by decide), h.2.1 1 3 (by decide) (by decide),
    h.2.2.2 6 7 (by decide) (by decide) (by decide)⟩

/-- C3: the reconnect loop of RPCProvider, projected onto the attempt
    counter: (1) a reconnect entered with the counter at or past the
    ceiling immediately reports the unrecoverable condition as a fatal
    exit with code 1, retrying no further and consuming no further connect
    outcome — since process.exit terminates the run, the fatal signal is
    reported exactly once; (2) below the ceiling each failed connect
    increments the counter by exactly one; (3) a successful connect resets
    the counter to zero (and nothing else does — conjunct (2) is the only
    other counter update); (4) from a zero counter, a run whose connect
    attempts all fail ends in the single fatal exit once the ceiling is
    exhausted. -/
theorem reconnect_ceiling_spec (maxA : Nat) :
    (∀ attempts outcomes, maxA ≤ attempts →
        runReconnect maxA attempts outcomes = .fatalExit 1)
    ∧ (∀ attempts rest, attempts < maxA →
        runReconnect maxA attempts (false :: rest)
          = runReconnect maxA (attempts + 1) rest)
    ∧ (∀ attempts rest, attempts < maxA →
        runReconnect maxA attempts (true :: rest) = .connected 0)
    ∧ (∀ outcomes, (∀ b ∈ outcomes, b = false) → maxA ≤ outcomes.length →
        runReconnect maxA 0 outcomes = .fatalExit 1) := by
  refine ⟨?_, ?_, ?_, ?_⟩
  · intro attempts outcomes h
    cases outcomes <;> simp [runReconnect, h]
  · intro attempts rest h
    simp [runReconnect, Nat.not_le.mpr h]
  · intro attempts rest h
    simp [runReconnect, Nat.not_le.mpr h]
  · intro outcomes hall hlen
    exact runReconnect_all_false maxA outcomes 0 hall (by omega)

/-- Witness for C3 at the default ceiling 10: a reconnect at the ceiling
    is fatal regardless of remaining outcomes; a failed connect at counter
    3 increments to 4; a successful connect resets to 0; ten straight
    connect failures from counter 0 end in the fatal exit. -/
theorem reconnect_ceiling_spec_witness :
    runReconnect 10 10 [true, true] = .fatalExit 1
    ∧ runReconnect 10 3 (false :: [true]) = runReconnect 10 4 [true]
    ∧ runReconnect 10 3 (true :: []) = .connected 0
    ∧ runReconnect 10 0 (List.replicate 10 false) = .fatalExit 1 := by
  have h := reconnect_ceiling_spec 10
  exact ⟨h.1 10 [true, true] (by decide),
    h.2.1 3 [true] (by decide),
    h.2.2.1 3 [] (by decide),
    h.2.2.2 (List.replicate 10 false) (by decide) (by decide)⟩

/-- C4 counterexample: reconnect() has no guarding state check. From a
    connected state, a first reconnect entry moves the manager into the
    reconnecting state (counter 1, disconnected, probe timer cleared);
    while that reconnect is suspended at its first await, a second
    racing reconnect entry is not a no-op: it increments the attempt
    counter again, to 2, yielding a state different from the one it was
    invoked in. -/
theorem reconnect_reentrant_counterexample :
    reconnectEntry 10 ⟨0, true, true, true⟩ = some ⟨1, false, false, true⟩
    ∧ reconnectEntry 10 ⟨1, false, false, true⟩ = some ⟨2, false, false, true⟩
    ∧ (⟨2, false, false, true⟩ : ConnState) ≠ ⟨1, false, false, true⟩ := by
  refine ⟨?_, ?_, by decide⟩ <;> rfl

/-- C4 amended: a reconnect() invoked while the manager is already
    Reconnecting is not a no-op. The synchronous prefix of reconnect() is
    unguarded: from any state whose attempt counter is below the ceiling —
    including a state already mid-reconnect — it unconditionally
    increments the counter, marks the connection down and clears the
    health-probe timer, so two racing triggers produce two running
    reconnect loops and a double increment. -/
theorem reconnect_reentry_unguarded (maxA : Nat) (s : ConnState)
    (h : s.reconnectAttempts < maxA) :
    reconnectEntry maxA s = some { s with
      reconnectAttempts := s.reconnectAttempts + 1
      isConnected := false
      healthTimerActive := false } := by
  simp [reconnectEntry, Nat.not_le.mpr h]

/-- Witness for the amended C4: a second entry from the mid-reconnect
    state with counter 1 increments to 2. -/
theorem reconnect_reentry_unguarded_witness :
    reconnectEntry 10 ⟨1, false, false, true⟩ = some ⟨2, false, false, true⟩ :=
  reconnect_reentry_unguarded 10 ⟨1, false, false, true⟩ (by decide)

/-- C5 counterexample: a decoded V2 purchase with positive price for which
    handleTokenPurchase issues no auxiliary total-supply call at all — the
    call is commented out in the source in favour of a hardcoded supply
    constant — contradicting the claim that every V2 trade handler with
    price > 0 attempts the auxiliary call. -/
theorem trade_auxcall_counterexample :
    0 < ratOfUnits c5Args.priceRaw
    ∧ (purchaseMarketCap .V2 c5Args).auxCalls = [] := by
  constructor
  · norm_num [ratOfUnits, c5Args]
  · by_cases hp : 0 < ratOfUnits c5Args.priceRaw <;>
      simp [purchaseMarketCap, hp]

/-- C5 amended: on schema V2, the sale handler with price > 0 attempts the
    auxiliary total-supply call on the trade's token and, if the call fails
    (returns null), leaves market_cap at its default 0, while a successful
    call with nonzero supply gives market_cap = price * supply; the
    purchase handler with price > 0 never attempts the auxiliary call and
    instead computes market_cap from the hardcoded raw supply constant
    1000000000; with price = 0 both handlers yield market_cap = 0 and
    attempt no auxiliary call. -/
theorem trade_marketcap_spec :
    (∀ (args : TradeArgs) (totalSupplyOracle : Option Nat),
        0 < ratOfUnits args.priceRaw →
        (saleMarketCap .V2 args totalSupplyOracle).auxCalls = [args.token]
        ∧ (totalSupplyOracle = none →
            (saleMarketCap .V2 args totalSupplyOracle).marketCap = 0)
        ∧ (∀ ts, totalSupplyOracle = some ts → ts ≠ 0 →
            (saleMarketCap .V2 args totalSupplyOracle).marketCap
              = calculateMarketCap (ratOfUnits args.priceRaw)
                  (ratOfUnits ts)))
    ∧ (∀ args : TradeArgs, 0 < ratOfUnits args.priceRaw →
        purchaseMarketCap .V2 args
          = ⟨calculateMarketCap (ratOfUnits args.priceRaw)
              (ratOfUnits 1000000000), []⟩)
    ∧ (∀ (args : TradeArgs) (totalSupplyOracle : Option Nat),
        ratOfUnits args.priceRaw = 0 →
        saleMarketCap .V2 args totalSupplyOracle = ⟨0, []⟩
        ∧ purchaseMarketCap .V2 args = ⟨0, []⟩) := by
  refine ⟨?_, ?_, ?_⟩
  · intro args o h
    refine ⟨?_, ?_, ?_⟩
    · cases o with
      | none => simp [saleMarketCap, h]
      | some ts =>
          by_cases hts : ts = 0 <;> simp [saleMarketCap, h, hts]
    · intro ho
      subst ho
      simp [saleMarketCap, h]
    · intro ts ho hts
      subst ho
      simp [saleMarketCap, h, hts]
  · intro args h
    simp [purchaseMarketCap, h]
  · intro args o h
    have hneg : ¬ (0 < ratOfUnits args.priceRaw) := by
      rw [h]
      exact lt_irrefl 0
    exact ⟨by simp [saleMarketCap, hneg], by simp [purchaseMarketCap, hneg]⟩

/-- Witness for the amended C5 at a concrete V2 trade with price 2: the
    sale handler queries exactly the trade's token, the purchase handler
    queries nothing and uses the hardcoded supply, and a zero-price sale
    yields market_cap 0 with no query. -/
theorem trade_marketcap_spec_witness :
    (saleMarketCap .V2 c5Args (some (10 ^ 27))).auxCalls = ["0xBBB..."]
    ∧ purchaseMarketCap .V2 c5Args
        = ⟨calculateMarketCap (ratOfUnits c5Args.priceRaw)
            (ratOfUnits 1000000000), []⟩
    ∧ saleMarketCap .V2 ⟨"0xBBB...", "0xAAA...", 0, 10 ^ 18, 10 ^ 18⟩ none
        = ⟨0, []⟩ := by
  have h := trade_marketcap_spec
  have hpos : 0 < ratOfUnits c5Args.priceRaw := by
    norm_num [ratOfUnits, c5Args]
  have hzero : ratOfUnits (0 : Nat) = 0 := by
    norm_num [ratOfUnits]
  exact ⟨(h.1 c5Args (some (10 ^ 27)) hpos).1, h.2.1 c5Args hpos,
    (h.2.2 ⟨"0xBBB...", "0xAAA...", 0, 10 ^ 18, 10 ^ 18⟩ none hzero).1⟩

/-- C7 counterexample: a canonical record carrying both a token address
    and a transaction signature is keyed by sendToKafka with its token
    address, not its transaction signature — the source key expression is
    `event.token_mint || event.signature || Math.random().toString()`. -/
theorem publish_key_counterexample :
    sendToKafkaKey (some "0xBBB...") (some "0xSIG") "0.123" = "0xBBB..."
    ∧ "0xBBB..." ≠ "0xSIG" := by
  exact ⟨rfl, by decide⟩

/-- C7 amended: sendToKafka keys each published record by the event's
    token_mint, falling back to the transaction signature only when
    token_mint is absent or empty, and to a bare (not topic-qualified)
    random key when both are absent or empty; the kafka sender's
    sendRawTokenEvent keys by the signature, falling back to a
    topic-qualified clock-based key when the signature is absent or
    empty. -/
theorem publish_key_spec :
    (∀ (tokenMint : String) (signature : Option String) (rand : String),
        tokenMint ≠ "" →
        sendToKafkaKey (some tokenMint) signature rand = tokenMint)
    ∧ (∀ (signature rand : String), signature ≠ "" →
        sendToKafkaKey none (some signature) rand = signature
        ∧ sendToKafkaKey (some "") (some signature) rand = signature)
    ∧ (∀ rand : String, sendToKafkaKey none none rand = rand)
    ∧ (∀ (signature topic : String) (nowMs : Nat), signature ≠ "" →
        sendRawTokenEventKey (some signature) topic nowMs = signature)
    ∧ (∀ (topic : String) (nowMs : Nat),
        sendRawTokenEventKey none topic nowMs
          = topic ++ "-" ++ toString nowMs) := by
  refine ⟨?_, ?_, fun _ => rfl, ?_, fun _ _ => rfl⟩
  · intro tm sig rand h
    simp [sendToKafkaKey, jsOrString, h]
  · intro sig rand h
    exact ⟨by simp [sendToKafkaKey, jsOrString, h],
      by simp [sendToKafkaKey, jsOrString, h]⟩
  · intro sig topic now h
    simp [sendRawTokenEventKey, jsOrString, h]

/-- Witness for the amended C7 at concrete keys. -/
theorem publish_key_spec_witness :
    sendToKafkaKey (some "0xBBB...") (some "0xSIG") "0.123" = "0xBBB..."
    ∧ sendToKafkaKey none (some "0xSIG") "0.123" = "0xSIG"
    ∧ sendToKafkaKey none none "0.123" = "0.123"
    ∧ sendRawTokenEventKey (some "0xSIG") "token.raw.created" 1700000000000
        = "0xSIG"
    ∧ sendRawTokenEventKey none "token.raw.created" 1700000000000
        = "token.raw.created" ++ "-" ++ toString 1700000000000 := by
  have h := publish_key_spec
  exact ⟨h.1 "0xBBB..." (some "0xSIG") "0.123" (by decide),
    (h.2.1 "0xSIG" "0.123" (by decide)).1,
    h.2.2.1 "0.123",
    h.2.2.2.1 "0xSIG" "token.raw.created" 1700000000000 (by decide),
    h.2.2.2.2 "token.raw.created" 1700000000000⟩

/-- C10: if the Kafka producer failed to initialize at startup (the
    initializeKafkaProducer catch block left it null), then every later
    sendToKafka call returns normally without publishing and without
    raising and never re-initializes the producer (any sequence of sends
    leaves the whole Kafka state — producer still null, nothing published
    — unchanged), while the event handler still constructs and returns
    exactly the canonical record it would have produced anyway: a single
    startup bus failure silently drops every later event for the lifetime
    of the process. -/
theorem kafka_startup_failure_silent_drop (st : KafkaState)
    (h : st.producer = none) :
    (initializeKafkaProducer false st).producer = none
    ∧ (∀ (topic : String) (event : TokenCreateRecord) (rand : String)
        (sendSucceeds : Bool),
        sendToKafka st topic event rand sendSucceeds = st)
    ∧ (∀ sends : List (String × TokenCreateRecord × String × Bool),
        sends.foldl
          (fun acc s => sendToKafka acc s.1 s.2.1 s.2.2.1 s.2.2.2) st = st)
    ∧ (∀ oracle c createdTokens args log nowMs rand sendSucceeds,
        (handleTokenCreateWithKafka st oracle c createdTokens args log
            nowMs rand sendSucceeds).1
          = (handleTokenCreateFull oracle c createdTokens args log nowMs).1
        ∧ (handleTokenCreateWithKafka st oracle c createdTokens args log
            nowMs rand sendSucceeds).2.1 = st) := by
  have hsend : ∀ (topic : String) (event : TokenCreateRecord)
      (rand : String) (ok : Bool), sendToKafka st topic event rand ok = st := by
    intro topic event rand ok
    simp [sendToKafka, h]
  refine ⟨by simp [initializeKafkaProducer], hsend, ?_, ?_⟩
  · intro sends
    induction sends with
    | nil => rfl
    | cons s rest ih =>
        rw [List.foldl_cons, hsend]
        exact ih
  · intro oracle c ct args log now rand ok
    exact ⟨rfl, hsend _ _ _ _⟩

/-- Witness for C10 at the empty post-failure Kafka state and a concrete
    record. -/
theorem kafka_startup_failure_silent_drop_witness :
    sendToKafka ⟨none, []⟩ "token.raw.created"
        ⟨0, "0xBBB...", "Pepe", "PEPE", "0xAAA...", "N/A", "1000000.0",
          1700000000, 100, "0xSIG", "ts"⟩ "0.123" true
      = (⟨none, []⟩ : KafkaState) := by
  exact (kafka_startup_failure_silent_drop ⟨none, []⟩ rfl).2.1
    "token.raw.created"
    ⟨0, "0xBBB...", "Pepe", "PEPE", "0xAAA...", "N/A", "1000000.0",
      1700000000, 100, "0xSIG", "ts"⟩ "0.123" true

/-- C8 counterexample: feeding the scenario's raw TokenCreate log through
    decode-and-enrich with the cache pre-populated for its block produces
    initial_supply "1000000.0" — the formatter always keeps one fractional
    digit — not the claimed "1000000". -/
theorem tokenCreate_initial_supply_counterexample :
    (handleTokenCreateFull (fun _ => .errored) c8Cache [] c8Args c8Log
        c8Now).1.initial_supply = "1000000.0"
    ∧ (handleTokenCreateFull (fun _ => .errored) c8Cache [] c8Args c8Log
        c8Now).1.initial_supply ≠ "1000000" := by
  constructor <;> decide

/-- C8 amended: feeding the raw TokenCreate log (creator 0xAAA..., token
    0xBBB..., name "Pepe", symbol "PEPE", totalSupply 10^24) through
    decode-and-enrich with the cache pre-populated for its block number
    with timestamp 1700000000000 ms produces a record with initial_supply
    "1000000.0" (not "1000000") and block_time 1700000000, issues no
    provider fetch, leaves the cache unchanged, and grows the in-memory
    created-token index by exactly one entry for 0xBBB... — for every
    provider oracle and every prior index state. -/
theorem tokenCreate_e2e_spec (oracle : Nat → FetchResult)
    (createdTokens : List CreatedToken) :
    (handleTokenCreateFull oracle c8Cache createdTokens c8Args c8Log
        c8Now).1.initial_supply = "1000000.0"
    ∧ (handleTokenCreateFull oracle c8Cache createdTokens c8Args c8Log
        c8Now).1.block_time = 1700000000
    ∧ (handleTokenCreateFull oracle c8Cache createdTokens c8Args c8Log
        c8Now).2.1 = c8Cache
    ∧ (handleTokenCreateFull oracle c8Cache createdTokens c8Args c8Log
        c8Now).2.2 = createdTokens ++ [⟨"0xBBB...", c8Now⟩]
    ∧ (getBlockTimestamp oracle c8Cache c8Log.blockNumber).attemptsMade
        = 0 := by
  have hget : getBlockTimestamp oracle c8Cache c8Log.blockNumber
      = ⟨some 1700000000000, c8Cache, 0, []⟩ := rfl
  simp only [handleTokenCreateFull, hget]
  exact ⟨by decide, by decide, trivial, rfl, trivial⟩

/-- C9 counterexample: handling the same raw TokenCreate log twice, with
    the same cache contents but at two different wall-clock instants,
    yields two canonical records that are not identical: the
    kafka_timestamp field records the invocation's wall-clock time. -/
theorem decode_idempotence_counterexample :
    handleTokenCreateRecord c8Args c8Log (some 1700000000000) 1700000001000
      ≠ handleTokenCreateRecord c8Args c8Log (some 1700000000000)
          1700000002000 := by
  decide

/-- C9 amended: the decode path has no hidden mutable state affecting the
    result — the record is a function of the raw log, the cached block
    timestamp, and the wall clock alone. Two invocations on the same raw
    log and cached timestamp agree on every field except kafka_timestamp,
    and invocations at the same wall-clock reading yield identical
    records. -/
theorem decode_deterministic_modulo_clock (args : TokenCreateArgs)
    (log : LogInfo) (ts nowMs nowMs2 : Nat) (hts : ts ≠ 0) :
    recordWithoutKafkaTimestamp
        (handleTokenCreateRecord args log (some ts) nowMs)
      = recordWithoutKafkaTimestamp
          (handleTokenCreateRecord args log (some ts) nowMs2)
    ∧ (nowMs = nowMs2 →
        handleTokenCreateRecord args log (some ts) nowMs
          = handleTokenCreateRecord args log (some ts) nowMs2) := by
  constructor
  · simp [recordWithoutKafkaTimestamp, handleTokenCreateRecord,
      blockTimeOf, hts]
  · intro h
    rw [h]

/-- Witness for the amended C9 at the scenario log and two distinct
    wall-clock instants. -/
theorem decode_deterministic_modulo_clock_witness :
    recordWithoutKafkaTimestamp
        (handleTokenCreateRecord c8Args c8Log (some 1700000000000)
          1700000001000)
      = recordWithoutKafkaTimestamp
          (handleTokenCreateRecord c8Args c8Log (some 1700000000000)
            1700000002000) :=
  (decode_deterministic_modulo_clock c8Args c8Log 1700000000000
    1700000001000 1700000002000 (by decide)).1

/-- C2: for a block_id absent from the cache, getBlockTimestamp performs
    at most maxRetries provider fetch attempts (default 3); after each
    failed attempt (absent block or thrown error) except the last it waits
    calculateBackoffDelay(attempt) before retrying; if the first success
    is at attempt a, the entry value timestamp*1000 is inserted (with
    smallest-key eviction applied if over capacity) and returned after
    exactly a attempts and delays for attempts 1..a-1; if all maxRetries
    attempts fail it returns not-found (none) and the cache is unchanged,
    with delays for attempts 1..maxRetries-1. -/
theorem getBlockTimestamp_retry_spec (oracle : Nat → FetchResult)
    (c : Cache) (bn maxRetries : Nat) (hmiss : cacheGet c bn = none)
    (hpos : 0 < maxRetries) :
    ((getBlockTimestamp oracle c bn maxRetries).attemptsMade ≤ maxRetries)
    ∧ ((∀ i, 1 ≤ i → i ≤ maxRetries → (oracle i).isFailure = true) →
        getBlockTimestamp oracle c bn maxRetries
          = ⟨none, c, maxRetries,
              (List.range' 1 (maxRetries - 1)).map
                (fun a => calculateBackoffDelay a)⟩)
    ∧ (∀ a ts, 1 ≤ a → a ≤ maxRetries →
        (∀ i, 1 ≤ i → i < a → (oracle i).isFailure = true) →
        oracle a = .found ts →
        getBlockTimestamp oracle c bn maxRetries
          = ⟨some (ts * 1000), insertTimestamp c bn (ts * 1000), a,
              (List.range' 1 (a - 1)).map
                (fun a => calculateBackoffDelay a)⟩) := by
  have hunfold : getBlockTimestamp oracle c bn maxRetries
      = fetchLoop oracle c bn 1 maxRetries := by
    simp [getBlockTimestamp, hmiss]
  refine ⟨?_, ?_, ?_⟩
  · rw [hunfold]
    exact fetchLoop_attempts_le oracle c bn maxRetries 1
  · intro hall
    rw [hunfold]
    exact fetchLoop_all_fail oracle c bn maxRetries 1 hpos
      (fun i h1 h2 => hall i h1 (by omega))
  · intro a ts h1 h2 hfails hsucc
    rw [hunfold]
    have hres := fetchLoop_success_at oracle c bn (a - 1) maxRetries 1 ts
      (by omega) (fun i hi1 hi2 => hfails i hi1 (by omega))
      (by rw [show 1 + (a - 1) = a by omega]
          exact hsucc)
    rw [show a - 1 + 1 = a from by omega] at hres
    exact hres

/-- Witness for C2: with an always-failing provider, three attempts, two
    backoff waits of 1000 and 2000 ms and an unchanged cache; with a
    provider succeeding on the second attempt, two attempts, one 1000 ms
    wait and the fetched timestamp cached in milliseconds. -/
theorem getBlockTimestamp_retry_spec_witness :
    getBlockTimestamp (fun _ => FetchResult.errored) [] 7 3
      = ⟨none, [], 3, [1000, 2000]⟩
    ∧ getBlockTimestamp
        (fun a => if a = 2 then .found 1700000000 else .absent) [] 7 3
      = ⟨some 1700000000000, [(7, 1700000000000)], 2, [1000]⟩ := by
  constructor
  · exact ((getBlockTimestamp_retry_spec (fun _ => FetchResult.errored)
      [] 7 3 rfl (by decide)).2.1 (fun i _ _ => rfl)).trans (by decide)
  · exact ((getBlockTimestamp_retry_spec
      (fun a => if a = 2 then .found 1700000000 else .absent)
      [] 7 3 rfl (by decide)).2.2 2 1700000000 (by decide) (by decide)
      (fun i hi1 hi2 => by
        have hi : i = 1 := by omega
        subst hi
        rfl)
      rfl).trans (by decide)

/-- C1: for the block-timestamp cache, whose configured capacity defaults
    to 100: (1) starting from the empty cache, after any sequence of
    insertions the size never exceeds the capacity at operation
    boundaries; (2) when an insertion of a fresh key pushes the size over
    capacity, exactly one entry is evicted, namely the entry with the
    numerically smallest key — the resulting size equals the capacity and
    the resulting key set is the old key set plus the new key minus its
    minimum; (3) after inserting entries for strictly increasing block
    numbers b1 < ... < bK with K exceeding the capacity C, exactly the
    K - C smallest-numbered entries are absent and the C largest remain
    (the final cache is the length-C suffix of the insertion sequence). -/
theorem blockCache_eviction_spec (cap : Nat) (hcap : 0 < cap) :
    maxCacheSize = 100
    ∧ (∀ es : List (Nat × Nat),
        (es.foldl (fun acc p => insertTimestampWith cap acc p.1 p.2)
          []).length ≤ cap)
    ∧ (∀ (c : Cache) (k v : Nat), (cacheKeys c).Nodup →
        k ∉ cacheKeys c → c.length = cap →
        (insertTimestampWith cap c k v).length = cap
        ∧ (∀ j, j ∈ cacheKeys (insertTimestampWith cap c k v)
            ↔ ((j ∈ cacheKeys c ∨ j = k)
                ∧ j ≠ minKey (cacheSet c k v))))
    ∧ (∀ es : List (Nat × Nat),
        List.Pairwise (fun a b : Nat × Nat => a.1 < b.1) es →
        cap < es.length →
        es.foldl (fun acc p => insertTimestampWith cap acc p.1 p.2) []
          = es.drop (es.length - cap)) := by
  have hfold : ∀ (es : List (Nat × Nat)) (c : Cache), c.length ≤ cap →
      (es.foldl (fun acc p => insertTimestampWith cap acc p.1 p.2)
        c).length ≤ cap := by
    intro es
    induction es with
    | nil =>
        intro c h
        simpa using h
    | cons p rest ih =>
        intro c h
        simp only [List.foldl_cons]
        exact ih _ (insertTimestampWith_length_le cap c p.1 p.2 h)
  refine ⟨rfl, fun es => hfold es [] (by simp), ?_, ?_⟩
  · intro c k v hnd hkn hclen
    have hset : cacheSet c k v = c ++ [(k, v)] :=
      cacheSet_of_not_mem c k v hkn
    have heq : insertTimestampWith cap c k v
        = cacheDelete (c ++ [(k, v)]) (minKey (c ++ [(k, v)])) := by
      unfold insertTimestampWith
      rw [hset, if_pos (by
        simp only [List.length_append, List.length_cons, List.length_nil,
          hclen]
        omega)]
    constructor
    · have hnd1 : (cacheKeys (c ++ [(k, v)])).Nodup := by
        simp only [cacheKeys, List.map_append, List.map_cons, List.map_nil]
        rw [List.nodup_append]
        refine ⟨hnd, by simp, ?_⟩
        intro a ha hb
        simp only [List.mem_singleton] at hb
        exact hkn (hb ▸ ha)
      have hmm : minKey (c ++ [(k, v)]) ∈ cacheKeys (c ++ [(k, v)]) :=
        minKey_mem _ (by simp)
      have hdel := cacheDelete_length_of_mem (c ++ [(k, v)]) _ hnd1 hmm
      have hlen1 : (c ++ [(k, v)]).length = cap + 1 := by
        simp [hclen]
      rw [heq]
      omega
    · intro j
      rw [heq, mem_keys_cacheDelete, hset]
      exact and_congr (by simp [cacheKeys]) Iff.rfl
  · intro es hpw _hlen
    have h := foldl_insert_sorted cap hcap es [] (by simpa using hpw)
      (by simp)
    simpa using h

/-- Witness for C1 at capacity 2: inserting the strictly increasing keys
    1, 2, 3, 4 into the empty cache leaves exactly the two largest, and a
    fresh insert into a full cache keeps the size at the capacity. -/
theorem blockCache_eviction_spec_witness :
    ([(1, 10), (2, 20), (3, 30), (4, 40)] : List (Nat × Nat)).foldl
        (fun acc p => insertTimestampWith 2 acc p.1 p.2) []
      = [(3, 30), (4, 40)]
    ∧ (insertTimestampWith 2 [(5, 50), (6, 60)] 7 70).length = 2 := by
  have h := blockCache_eviction_spec 2 (by decide)
  constructor
  · exact (h.2.2.2 [(1, 10), (2, 20), (3, 30), (4, 40)] (by decide)
      (by decide)).trans (by decide)
  · exact (h.2.2.1 [(5, 50), (6, 60)] 7 70 (by decide) (by decide)
      (by decide)).1

end BnbMonitor
